import Mathlib

/-!
Verification of the Blood Eagle service worker (src/service-worker.js).

The development shallowly embeds the worker's handlers and helpers:
the install / activate / fetch / message event listeners, and the
functions storeGameData, getStoredGameData, checkForUpdates and
cleanupOldData.  Platform behaviour that the handlers rely on is
modelled to the web-platform specification where the handlers invoke
it (atomicity of cache.addAll, JSON.stringify / JSON.parse, response
cloning, event.respondWith resolution).

JSON values are modelled with integer-valued numbers (JavaScript
numbers are IEEE binary64; the integer subset is where stringify
prints plain decimal and the stringify/parse composition is exact,
which covers every payload this worker produces).  Strings are
Unicode scalar sequences, as in Lean's String.
-/

/-! ### Characters used by the JSON printer and parser -/

/-- The double-quote character. -/
def qc : Char := Char.ofNat 34

/-- The backslash character. -/
def bsc : Char := Char.ofNat 92

/-- The opening-bracket character of a JSON array. -/
def lbk : Char := Char.ofNat 91

/-- The closing-bracket character of a JSON array. -/
def rbk : Char := Char.ofNat 93

/-- The opening-brace character of a JSON object. -/
def lbr : Char := Char.ofNat 123

/-- The closing-brace character of a JSON object. -/
def rbr : Char := Char.ofNat 125

/-- The comma separator. -/
def commac : Char := Char.ofNat 44

/-- The colon separator. -/
def colonc : Char := Char.ofNat 58

/-- The minus sign. -/
def minusc : Char := Char.ofNat 45

/-- Lower-case hexadecimal digit for a value below 16,
as emitted by JSON.stringify in control-character escapes. -/
def hexDig (d : Nat) : Char :=
  if d < 10 then Char.ofNat (48 + d) else Char.ofNat (87 + d)

/-- Value of a hexadecimal digit character accepted by JSON.parse. -/
def hexVal (c : Char) : Option Nat :=
  if 48 ≤ c.toNat ∧ c.toNat ≤ 57 then some (c.toNat - 48)
  else if 97 ≤ c.toNat ∧ c.toNat ≤ 102 then some (c.toNat - 87)
  else if 65 ≤ c.toNat ∧ c.toNat ≤ 70 then some (c.toNat - 55)
  else none

/-- Escape of one character inside a JSON string literal, following
JSON.stringify: quote and backslash get two-character escapes, the five
named control characters get their short escapes, remaining control
characters get a \u00XX escape, and every other character is literal. -/
def escChar (c : Char) : List Char :=
  if c = qc then [bsc, qc]
  else if c = bsc then [bsc, bsc]
  else if c = Char.ofNat 8 then [bsc, Char.ofNat 98]
  else if c = Char.ofNat 9 then [bsc, Char.ofNat 116]
  else if c = Char.ofNat 10 then [bsc, Char.ofNat 110]
  else if c = Char.ofNat 12 then [bsc, Char.ofNat 102]
  else if c = Char.ofNat 13 then [bsc, Char.ofNat 114]
  else if c.toNat < 32 then
    [bsc, Char.ofNat 117, Char.ofNat 48, Char.ofNat 48,
     hexDig (c.toNat / 16), hexDig (c.toNat % 16)]
  else [c]

/-- Escape of a whole string body. -/
def escList : List Char → List Char
  | [] => []
  | c :: cs => escChar c ++ escList cs

/-- Parser for the body of a JSON string literal (the opening quote has
already been consumed); returns the decoded characters and the input
remaining after the closing quote. -/
def psb : List Char → Option (List Char × List Char)
  | [] => none
  | c :: rest =>
    if c = qc then some ([], rest)
    else if c = bsc then
      match rest with
      | [] => none
      | e :: rest2 =>
        if e = qc then (psb rest2).map (fun p => (qc :: p.1, p.2))
        else if e = bsc then (psb rest2).map (fun p => (bsc :: p.1, p.2))
        else if e = Char.ofNat 47 then
          (psb rest2).map (fun p => (Char.ofNat 47 :: p.1, p.2))
        else if e = Char.ofNat 98 then
          (psb rest2).map (fun p => (Char.ofNat 8 :: p.1, p.2))
        else if e = Char.ofNat 116 then
          (psb rest2).map (fun p => (Char.ofNat 9 :: p.1, p.2))
        else if e = Char.ofNat 110 then
          (psb rest2).map (fun p => (Char.ofNat 10 :: p.1, p.2))
        else if e = Char.ofNat 102 then
          (psb rest2).map (fun p => (Char.ofNat 12 :: p.1, p.2))
        else if e = Char.ofNat 114 then
          (psb rest2).map (fun p => (Char.ofNat 13 :: p.1, p.2))
        else if e = Char.ofNat 117 then
          match rest2 with
          | h1 :: h2 :: h3 :: h4 :: rest3 =>
            match hexVal h1, hexVal h2, hexVal h3, hexVal h4 with
            | some a, some b, some c2, some d =>
              let n := ((a * 16 + b) * 16 + c2) * 16 + d
              if n < 55296 then
                (psb rest3).map (fun p => (Char.ofNat n :: p.1, p.2))
              else none
            | _, _, _, _ => none
          | _ => none
        else none
    else (psb rest).map (fun p => (c :: p.1, p.2))

/-- Value of a decimal digit character. -/
def digitVal (c : Char) : Option Nat :=
  if 48 ≤ c.toNat ∧ c.toNat ≤ 57 then some (c.toNat - 48) else none

/-- Splits a maximal run of decimal digits off the front of the input. -/
def takeDigits : List Char → List Nat × List Char
  | [] => ([], [])
  | c :: rest =>
    match digitVal c with
    | some d =>
      let p := takeDigits rest
      (d :: p.1, p.2)
    | none => ([], c :: rest)

/-- Numeric value of a big-endian digit list. -/
def valOfDigits (ds : List Nat) : Nat :=
  ds.foldl (fun a d => a * 10 + d) 0

/-- Little-endian decimal digits of a positive number, with explicit
fuel so that the definition is structural (fuel at least the number
itself suffices). -/
def digitsRevAux : Nat → Nat → List Char
  | 0, _ => []
  | fuel + 1, n =>
    if n = 0 then [] else Char.ofNat (48 + n % 10) :: digitsRevAux fuel (n / 10)

/-- Decimal digits of a natural number, as printed by JSON.stringify. -/
def natChars (n : Nat) : List Char :=
  if n = 0 then [Char.ofNat 48] else (digitsRevAux n n).reverse

/-- Decimal form of an integer, as printed by JSON.stringify for
integer-valued numbers. -/
def intChars (i : Int) : List Char :=
  match i with
  | Int.ofNat n => natChars n
  | Int.negSucc m => minusc :: natChars (m + 1)

/-- Parser for a JSON integer number (optional minus sign followed by a
digit run). -/
def parseNum (cs : List Char) : Option (Int × List Char) :=
  match cs with
  | [] => none
  | c :: rest =>
    if c = minusc then
      match takeDigits rest with
      | ([], _) => none
      | (ds, r) => some (-(valOfDigits ds : Int), r)
    else
      match takeDigits cs with
      | ([], _) => none
      | (ds, r) => some ((valOfDigits ds : Int), r)

/-! ### JSON values -/

mutual

/-- JSON-serializable values (JavaScript numbers restricted to the
integer subset, see the module comment). -/
inductive Json where
  | null : Json
  | bool (b : Bool) : Json
  | num (n : Int) : Json
  | str (s : String) : Json
  | arr (xs : JsonList) : Json
  | obj (fs : JsonFields) : Json

/-- Element list of a JSON array. -/
inductive JsonList where
  | nil : JsonList
  | cons (hd : Json) (tl : JsonList) : JsonList

/-- Field list of a JSON object, in insertion order. -/
inductive JsonFields where
  | nil : JsonFields
  | cons (k : String) (v : Json) (tl : JsonFields) : JsonFields

end

deriving instance DecidableEq for Json, JsonList, JsonFields

mutual

/-- Character stream produced by JSON.stringify (no whitespace). -/
def schars : Json → List Char
  | Json.null => ("null").toList
  | Json.bool b => if b then ("true").toList else ("false").toList
  | Json.num i => intChars i
  | Json.str s => qc :: (escList s.toList ++ [qc])
  | Json.arr xs => lbk :: scharsArr xs
  | Json.obj fs => lbr :: scharsObj fs

/-- Elements of an array after the opening bracket. -/
def scharsArr : JsonList → List Char
  | JsonList.nil => [rbk]
  | JsonList.cons x tl => schars x ++ scharsArrRest tl

/-- Remaining elements of an array, each preceded by a comma. -/
def scharsArrRest : JsonList → List Char
  | JsonList.nil => [rbk]
  | JsonList.cons x tl => commac :: (schars x ++ scharsArrRest tl)

/-- Members of an object after the opening brace. -/
def scharsObj : JsonFields → List Char
  | JsonFields.nil => [rbr]
  | JsonFields.cons k v tl =>
    qc :: (escList k.toList ++ [qc] ++ (colonc :: (schars v ++ scharsObjRest tl)))

/-- Remaining members of an object, each preceded by a comma. -/
def scharsObjRest : JsonFields → List Char
  | JsonFields.nil => [rbr]
  | JsonFields.cons k v tl =>
    commac :: (qc :: (escList k.toList ++ [qc] ++ (colonc :: (schars v ++ scharsObjRest tl))))

end

/-- JSON.stringify on the modelled value space. -/
def stringifyStr (v : Json) : String := String.mk (schars v)

/-- Parser mode: a full value, or the tail of an array / object. -/
inductive PMode where
  | val : PMode
  | arrFirst : PMode
  | arrRest : PMode
  | objFirst : PMode
  | objRest : PMode

/-- Parser result: a value, an element list, or a field list. -/
inductive PRes where
  | v (j : Json) : PRes
  | vs (l : JsonList) : PRes
  | fs (l : JsonFields) : PRes

/-- Recursive-descent JSON parser with explicit fuel (one unit per
recursive step), modelling JSON.parse on whitespace-free input — the
exact shape JSON.stringify emits.  Numbers are restricted to the
integer subset of the model. -/
def pj : Nat → PMode → List Char → Option (PRes × List Char)
  | 0, _, _ => none
  | fuel + 1, PMode.val, cs =>
    if cs.take 4 = ("null").toList then some (PRes.v Json.null, cs.drop 4)
    else if cs.take 4 = ("true").toList then some (PRes.v (Json.bool true), cs.drop 4)
    else if cs.take 5 = ("false").toList then some (PRes.v (Json.bool false), cs.drop 5)
    else
      match cs with
      | [] => none
      | c :: rest =>
        if c = qc then
          (psb rest).map (fun p => (PRes.v (Json.str (String.mk p.1)), p.2))
        else if c = lbk then
          match pj fuel PMode.arrFirst rest with
          | some (PRes.vs l, r) => some (PRes.v (Json.arr l), r)
          | _ => none
        else if c = lbr then
          match pj fuel PMode.objFirst rest with
          | some (PRes.fs l, r) => some (PRes.v (Json.obj l), r)
          | _ => none
        else (parseNum (c :: rest)).map (fun p => (PRes.v (Json.num p.1), p.2))
  | fuel + 1, PMode.arrFirst, cs =>
    match cs with
    | [] => none
    | c :: rest =>
      if c = rbk then some (PRes.vs JsonList.nil, rest)
      else
        match pj fuel PMode.val (c :: rest) with
        | some (PRes.v x, r1) =>
          match pj fuel PMode.arrRest r1 with
          | some (PRes.vs tl, r2) => some (PRes.vs (JsonList.cons x tl), r2)
          | _ => none
        | _ => none
  | fuel + 1, PMode.arrRest, cs =>
    match cs with
    | [] => none
    | c :: rest =>
      if c = rbk then some (PRes.vs JsonList.nil, rest)
      else if c = commac then
        match pj fuel PMode.val rest with
        | some (PRes.v x, r1) =>
          match pj fuel PMode.arrRest r1 with
          | some (PRes.vs tl, r2) => some (PRes.vs (JsonList.cons x tl), r2)
          | _ => none
        | _ => none
      else none
  | fuel + 1, PMode.objFirst, cs =>
    match cs with
    | [] => none
    | c :: rest =>
      if c = rbr then some (PRes.fs JsonFields.nil, rest)
      else if c = qc then
        match psb rest with
        | some (kcs, r1) =>
          match r1 with
          | [] => none
          | d :: r2 =>
            if d = colonc then
              match pj fuel PMode.val r2 with
              | some (PRes.v x, r3) =>
                match pj fuel PMode.objRest r3 with
                | some (PRes.fs tl, r4) =>
                  some (PRes.fs (JsonFields.cons (String.mk kcs) x tl), r4)
                | _ => none
              | _ => none
            else none
        | none => none
      else none
  | fuel + 1, PMode.objRest, cs =>
    match cs with
    | [] => none
    | c :: rest =>
      if c = rbr then some (PRes.fs JsonFields.nil, rest)
      else if c = commac then
        match rest with
        | [] => none
        | d :: r0 =>
          if d = qc then
            match psb r0 with
            | some (kcs, r1) =>
              match r1 with
              | [] => none
              | e :: r2 =>
                if e = colonc then
                  match pj fuel PMode.val r2 with
                  | some (PRes.v x, r3) =>
                    match pj fuel PMode.objRest r3 with
                    | some (PRes.fs tl, r4) =>
                      some (PRes.fs (JsonFields.cons (String.mk kcs) x tl), r4)
                    | _ => none
                  | _ => none
                else none
            | none => none
          else none
      else none

/-- JSON.parse on the modelled value space: parse a full value and
require the input to be fully consumed.  The fuel bound exceeds what
any parsable input can use (each recursive step either consumes input
or is immediately followed by a consuming step). -/
def parseJson (s : String) : Option Json :=
  match pj (2 * s.toList.length + 4) PMode.val s.toList with
  | some (PRes.v j, []) => some j
  | _ => none

/-! ### String helpers

Character-list implementations of the JavaScript string operations the
worker uses (startsWith, includes, split). -/

/-- Whether `pat` is a prefix of `l`. -/
def listHasPrefix : List Char → List Char → Bool
  | [], _ => true
  | _ :: _, [] => false
  | a :: as, b :: bs => if a = b then listHasPrefix as bs else false

/-- Whether `pat` occurs contiguously inside `l`. -/
def listHasInfix (pat : List Char) : List Char → Bool
  | [] => listHasPrefix pat []
  | c :: rest =>
    if listHasPrefix pat (c :: rest) then true else listHasInfix pat rest

/-- Prefix test, modelling JavaScript's String.prototype.startsWith. -/
def startsWithStr (s pre : String) : Bool :=
  listHasPrefix pre.toList s.toList

/-- One split pass: cut the input at every occurrence of the non-empty
separator, left to right, non-overlapping.  Fuel bounds the recursion;
one unit per input character suffices since every step consumes at
least one character. -/
def splitFuel (pat : List Char) : Nat → List Char → List Char → List (List Char)
  | 0, l, acc => [acc.reverse ++ l]
  | _ + 1, [], acc => [acc.reverse]
  | fuel + 1, c :: rest, acc =>
    if listHasPrefix pat (c :: rest) then
      acc.reverse :: splitFuel pat fuel ((c :: rest).drop pat.length) []
    else
      splitFuel pat fuel rest (c :: acc)

/-- JavaScript's String.prototype.split with a non-empty string
separator. -/
def jsSplit (s sep : String) : List String :=
  (splitFuel sep.toList (s.toList.length + 1) s.toList []).map String.mk

/-! ### Service-worker data model

Constants and handlers translated from src/service-worker.js. -/

/-- `const CACHE_NAME = 'blood-eagle-v1.0.0'` — the VersionTag-scoped
store name of the current build. -/
def CACHE_NAME : String := "blood-eagle-v1.0.0"

/-- `const OFFLINE_URL = 'index_new.html'` — the offline fallback
document identifier. -/
def OFFLINE_URL : String := "index_new.html"

/-- `const STATIC_ASSETS = [...]` — the asset list cached at install. -/
def STATIC_ASSETS : List String :=
  ["/", "/index_new.html", "/blood_eagle_game.html", "/manifest.json",
   "/service-worker.js",
   "https://fonts.googleapis.com/css2?family=Tajawal:wght@300;400;700;900&family=Cairo:wght@300;400;600;700&display=swap",
   "https://cdnjs.cloudflare.com/ajax/libs/font-awesome/6.5.1/css/all.min.css"]

/-- Type of a fetched response, per the Fetch standard: `basic` for
same-origin responses, `cors` / `opq` (the opaque type) /
`opqredirect` for cross-origin ones, `default` for constructed
responses. -/
inductive ResponseType where
  | basic : ResponseType
  | cors : ResponseType
  | opq : ResponseType
  | opqredirect : ResponseType
  | error : ResponseType
  | default : ResponseType
deriving DecidableEq

/-- Headers of a response, restricted to the two headers this worker
reads or writes.  `date` is the value of the `date` header already
parsed to milliseconds since the epoch (`new Date(hdr).getTime()` is
platform date parsing), `none` when the header is absent. -/
structure Headers where
  contentType : Option String
  date : Option Nat
deriving DecidableEq

/-- A response as stored in and served from the cache. -/
structure Response where
  status : Nat
  rtype : ResponseType
  body : String
  headers : Headers
deriving DecidableEq

/-- A CacheStore: ordered association list from absolute request URL
(the request identity of a GET request) to the stored response. -/
abbrev Store := List (String × Response)

/-- `cache.match(url)` — first stored response whose key equals the
request URL. -/
def storeMatch (st : Store) (url : String) : Option Response :=
  (st.find? (fun e => e.1 = url)).map (fun e => e.2)

/-- `cache.put(url, resp)` — stores a response under the URL, replacing
any previous entry for the same identity. -/
def storePut (st : Store) (url : String) (r : Response) : Store :=
  (url, r) :: st.filter (fun e => ¬ (e.1 = url))

/-- Resolution of a URL string against the worker's scope (the worker
script lives at the origin root, per STATIC_ASSETS): absolute URLs are
kept, path-absolute and relative ones are resolved against the origin. -/
def resolve (origin rel : String) : String :=
  if startsWithStr rel ("https://") || startsWithStr rel ("http://") then rel
  else if startsWithStr rel ("/") then origin ++ rel
  else origin ++ ("/") ++ rel

/-- Substring test, modelling JavaScript's String.prototype.includes. -/
def includesStr (s pat : String) : Bool :=
  listHasInfix pat.toList s.toList

/-- The origin filter of the fetch listener:
`url.startsWith(self.location.origin) || url.includes('fonts.googleapis.com')
 || url.includes('cdnjs.cloudflare.com')`. -/
def allowedUrl (origin url : String) : Bool :=
  startsWithStr url origin || includesStr url ("fonts.googleapis.com")
    || includesStr url ("cdnjs.cloudflare.com")

/-- An incoming request: method, absolute URL, and request mode
(`"navigate"` for top-level navigations). -/
structure Request where
  method : String
  url : String
  mode : String

/-- Outcome of the fetch event as observed by the requesting client:
`passThrough` when the listener returns without calling respondWith
(the browser performs its default fetch), `served r` when respondWith
resolves with response `r`, and `networkError` when the respondWith
promise resolves with `undefined` or rejects — either way the client
observes a failed (network-error) request. -/
inductive FetchOutcome where
  | passThrough : FetchOutcome
  | served (r : Response) : FetchOutcome
  | networkError : FetchOutcome
deriving DecidableEq

/-- Result of one network fetch as seen by the listener's promise
chain: the fetch promise resolves with a response (or `undefined`,
which the listener's `!fetchResponse` guard checks for), or rejects
(offline). -/
inductive NetResult where
  | resolved (r : Option Response) : NetResult
  | rejected : NetResult

/-- Result of running the fetch listener: the outcome delivered to the
client, the cache store afterwards, and whether `fetch()` was called. -/
structure FetchResult where
  outcome : FetchOutcome
  store : Store
  networkFetched : Bool
deriving DecidableEq

/-- The fetch event listener (src/service-worker.js lines 61-103).
Non-GET requests and requests to origins outside the filter return
early (pass through).  Otherwise `caches.match` is consulted first and
a hit is served with no network fetch.  On a miss the request is
fetched: a resolved response is served, and additionally cloned and
written to the cache when it has status 200 and type `'basic'`; a
rejected fetch falls to the catch, which serves the cached offline page
for navigations and otherwise resolves with `undefined`. -/
def handleFetch (origin : String) (req : Request) (st : Store) (net : NetResult) :
    FetchResult :=
  if ¬ (req.method = "GET") then ⟨FetchOutcome.passThrough, st, false⟩
  else if ¬ (allowedUrl origin req.url = true) then ⟨FetchOutcome.passThrough, st, false⟩
  else
    match storeMatch st req.url with
    | some r => ⟨FetchOutcome.served r, st, false⟩
    | none =>
      match net with
      | NetResult.resolved none => ⟨FetchOutcome.networkError, st, true⟩
      | NetResult.resolved (some fr) =>
        if fr.status = 200 ∧ fr.rtype = ResponseType.basic then
          ⟨FetchOutcome.served fr, storePut st req.url fr, true⟩
        else
          ⟨FetchOutcome.served fr, st, true⟩
      | NetResult.rejected =>
        if req.mode = "navigate" then
          match storeMatch st (resolve origin OFFLINE_URL) with
          | some doc => ⟨FetchOutcome.served doc, st, true⟩
          | none => ⟨FetchOutcome.networkError, st, true⟩
        else ⟨FetchOutcome.networkError, st, true⟩

/-- Result of the install event as observed by the platform. -/
structure InstallResult where
  reportedFailure : Bool
  skipWaitingCalled : Bool
  store : Store
deriving DecidableEq

/-- The install event listener (src/service-worker.js lines 20-37).
`caches.open(CACHE_NAME)` creates the (empty) store, `cache.addAll`
fetches every asset and — per the Cache API batch semantics — writes
all of them on success and writes none and rejects if any fetch fails
or yields a non-ok response (`fetchOk a = none` models both).  On
success the chain calls `self.skipWaiting()`.  The trailing
`.catch(error => console.error(...))` converts any rejection into a
resolved promise, so `event.waitUntil` never observes a failure. -/
def installHandler (origin : String) (fetchOk : String → Option Response)
    (assets : List String) : InstallResult :=
  if assets.all (fun a => (fetchOk a).isSome) then
    { reportedFailure := false
      skipWaitingCalled := true
      store := assets.foldl
        (fun st a =>
          match fetchOk a with
          | some r => storePut st (resolve origin a) r
          | none => st) [] }
  else
    { reportedFailure := false, skipWaitingCalled := false, store := [] }

/-- The universe of named cache stores, as enumerated by
`caches.keys()`. -/
abbrev CacheUniverse := List (String × Store)

/-- The activate event listener (src/service-worker.js lines 40-58):
for every cache name differing from CACHE_NAME, `caches.delete` removes
that store; the stores remaining afterwards are exactly those named
CACHE_NAME.  `self.clients.claim()` then starts controlling existing
clients. -/
def activateHandler (cu : CacheUniverse) : CacheUniverse :=
  cu.filter (fun e => e.1 = CACHE_NAME)

/-- Lookup of a named cache store in the universe. -/
def cachesLookup (cu : CacheUniverse) (name : String) : Option Store :=
  (cu.find? (fun e => e.1 = name)).map (fun e => e.2)

/-- `response.json()` — parse of the body text; `none` models the
rejection that the callers catch. -/
def respJson (r : Response) : Option Json := parseJson r.body

/-- The reserved ProgressRecord key `'/game-data'`, resolved like every
cache key. -/
def gameDataKey (origin : String) : String := resolve origin ("/game-data")

/-- `storeGameData(gameData)` (src/service-worker.js lines 296-310):
builds `new Response(JSON.stringify(gameData), {headers:
{'Content-Type': 'application/json'}})` — a constructed response with
status 200, type `'default'`, a Content-Type header and no date header
— and puts it under `'/game-data'`. -/
def storeGameDataFn (origin : String) (st : Store) (v : Json) : Store :=
  storePut st (gameDataKey origin)
    { status := 200
      rtype := ResponseType.default
      body := stringifyStr v
      headers := { contentType := some ("application/json"), date := none } }

/-- `getStoredGameData()` (src/service-worker.js lines 184-198): match
`'/game-data'` in the cache; on a hit return `response.json()`, on a
miss return null; a parse rejection is caught and returns null. -/
def getStoredGameDataFn (origin : String) (st : Store) : Option Json :=
  match storeMatch st (gameDataKey origin) with
  | some r => respJson r
  | none => none

/-- `maxAge = 7 * 24 * 60 * 60 * 1000` — the 7-day retention window of
cleanupOldData, in milliseconds. -/
def maxAgeMs : Nat := 7 * 24 * 60 * 60 * 1000

/-- `new Date(response.headers.get('date') || 0).getTime()` — the
timestamp cleanupOldData ascribes to an entry: the parsed date header,
or the epoch when the header is absent. -/
def dateOf (r : Response) : Nat := r.headers.date.getD 0

/-- `cleanupOldData()` (src/service-worker.js lines 317-337): iterate
over all keys of the store and delete every entry whose ascribed
timestamp lies more than maxAge before `now` (`Date.now()`). -/
def cleanupOldData (now : Nat) (st : Store) : Store :=
  st.filter (fun e => ¬ (maxAgeMs < now - dateOf e.2))

/-- `CACHE_NAME.split('-v')[1]` — the version the running build
compares the manifest against. -/
def currentVersion : String := (jsSplit CACHE_NAME ("-v")).getD 1 ("")

/-- JavaScript property access `j.version`-style on a parsed JSON
value: `none` models the TypeError thrown on `null`; `some none` is
`undefined` (non-object values, or key absent); on objects the last
binding wins, as JSON.parse builds objects by successive assignment. -/
def jsGetField (j : Json) (k : String) : Option (Option Json) :=
  match j with
  | Json.null => none
  | Json.obj fs => some (jsFieldsGet fs k)
  | _ => some none
where
  /-- Last binding of `k` in the field list, if any. -/
  jsFieldsGet : JsonFields → String → Option Json
    | JsonFields.nil, _ => none
    | JsonFields.cons k2 v tl, k =>
      match jsFieldsGet tl k with
      | some w => some w
      | none => if k2 = k then some v else none

/-- `manifestData.version !== currentVersion` — strict inequality of a
JSON value (`none` = undefined) against a string. -/
def strictNeStr (v : Option Json) (s : String) : Bool :=
  match v with
  | some (Json.str t) => ¬ (t = s)
  | _ => true

/-- Observable result of one checkForUpdates cycle. -/
structure UpdateCheck where
  notifications : Nat
  forcedActivation : Bool
deriving DecidableEq

/-- `checkForUpdates()` (src/service-worker.js lines 226-254): read the
cached ManifestSnapshot (`cache.match('/manifest.json')`); when present
and parsable, compare its `version` field with
`CACHE_NAME.split('-v')[1]` and show exactly one update notification on
strict mismatch.  Every failure (missing manifest, json() rejection,
property access on null) is caught and shows nothing.  The function
never calls skipWaiting, so it never forces activation. -/
def checkForUpdates (origin : String) (st : Store) : UpdateCheck :=
  match storeMatch st (resolve origin ("/manifest.json")) with
  | none => ⟨0, false⟩
  | some m =>
    match respJson m with
    | none => ⟨0, false⟩
    | some j =>
      match jsGetField j ("version") with
      | none => ⟨0, false⟩
      | some fv =>
        if strictNeStr fv currentVersion then ⟨1, false⟩ else ⟨0, false⟩

/-- Control-channel messages recognised by the message listener. -/
inductive Message where
  | skipWaitingMsg : Message
  | getVersion : Message
  | storeGD (v : Json) : Message
  | getStoredD : Message
  | other (t : String) : Message

/-- Replies posted back over the message port. -/
inductive Reply where
  | versionReply (s : String) : Reply
  | dataReply (d : Option Json) : Reply

/-- The message event listener (src/service-worker.js lines 266-293):
SKIP_WAITING calls skipWaiting, GET_VERSION posts the cache name,
STORE_GAME_DATA runs storeGameData, GET_STORED_DATA posts the stored
record, unknown types are logged and ignored. -/
def handleMessage (origin : String) (st : Store) (m : Message) :
    Store × Option Reply :=
  match m with
  | Message.skipWaitingMsg => (st, none)
  | Message.getVersion => (st, some (Reply.versionReply CACHE_NAME))
  | Message.storeGD v => (storeGameDataFn origin st v, none)
  | Message.getStoredD => (st, some (Reply.dataReply (getStoredGameDataFn origin st)))
  | Message.other _ => (st, none)

/-! ### Helper lemmas: characters and digits -/

theorem char_ne_of_toNat_ne {c d : Char} (h : ¬ c.toNat = d.toNat) : ¬ c = d :=
  fun he => h (congrArg Char.toNat he)

theorem toNat_ofNat_small {k : Nat} (h : k < 55296) : (Char.ofNat k).toNat = k := by
  have hv : k.isValidChar := Or.inl h
  simp [Char.ofNat, dif_pos hv, Char.ofNatAux, Char.toNat, UInt32.toNat, UInt32.ofNat']

theorem digitsRevAux_digits {fuel n : Nat} :
    ∀ c ∈ digitsRevAux fuel n, 48 ≤ c.toNat ∧ c.toNat ≤ 57 := by
  induction fuel generalizing n with
  | zero => simp [digitsRevAux]
  | succ f ih =>
    simp only [digitsRevAux]
    by_cases h0 : n = 0
    · simp [h0]
    · rw [if_neg h0]
      intro c hc
      rcases List.mem_cons.mp hc with h1 | h2
      · subst h1
        have hx : (Char.ofNat (48 + n % 10)).toNat = 48 + n % 10 :=
          toNat_ofNat_small (by omega)
        omega
      · exact ih _ h2

theorem digitsRevAux_val {fuel n : Nat} (h : n ≤ fuel) :
    ((digitsRevAux fuel n).map (fun c => c.toNat - 48)).foldr
      (fun x y => y * 10 + x) 0 = n := by
  induction fuel generalizing n with
  | zero =>
    have h0 : n = 0 := by omega
    subst h0
    simp [digitsRevAux]
  | succ f ih =>
    simp only [digitsRevAux]
    by_cases h0 : n = 0
    · simp [h0]
    · rw [if_neg h0]
      simp only [List.map_cons, List.foldr_cons]
      have hx : (Char.ofNat (48 + n % 10)).toNat = 48 + n % 10 :=
        toNat_ofNat_small (by omega)
      have hlt : n / 10 < n := Nat.div_lt_self (Nat.pos_of_ne_zero h0) (by omega)
      rw [ih (show n / 10 ≤ f by omega)]
      omega

theorem natChars_ne_nil (n : Nat) : ¬ (natChars n = []) := by
  unfold natChars
  by_cases h0 : n = 0
  · simp [h0]
  · rw [if_neg h0]
    cases n with
    | zero => exact absurd rfl h0
    | succ m => simp [digitsRevAux]

theorem natChars_digits {n : Nat} : ∀ c ∈ natChars n, 48 ≤ c.toNat ∧ c.toNat ≤ 57 := by
  unfold natChars
  by_cases h0 : n = 0
  · intro c hc
    rw [if_pos h0] at hc
    have : c = Char.ofNat 48 := by simpa using hc
    subst this
    decide
  · rw [if_neg h0]
    intro c hc
    exact digitsRevAux_digits c (List.mem_reverse.mp hc)

theorem valOfDigits_natChars (n : Nat) :
    valOfDigits ((natChars n).map (fun c => c.toNat - 48)) = n := by
  unfold natChars valOfDigits
  by_cases h0 : n = 0
  · rw [if_pos h0]
    subst h0
    decide
  · rw [if_neg h0]
    rw [List.map_reverse, List.foldl_reverse]
    exact digitsRevAux_val (Nat.le_refl n)

/-- Right context acceptable after a printed number: empty input or a
non-digit head, so that the greedy digit scan stops exactly there. -/
def restOk : List Char → Prop
  | [] => True
  | c :: _ => digitVal c = none

theorem takeDigits_exact {l rest : List Char}
    (hd : ∀ c ∈ l, 48 ≤ c.toNat ∧ c.toNat ≤ 57) (hr : restOk rest) :
    takeDigits (l ++ rest) = (l.map (fun c => c.toNat - 48), rest) := by
  induction l with
  | nil =>
    simp only [List.nil_append, List.map_nil]
    cases rest with
    | nil => rfl
    | cons c t =>
      have hc : digitVal c = none := hr
      simp [takeDigits, hc]
  | cons c t ih =>
    have hc : 48 ≤ c.toNat ∧ c.toNat ≤ 57 := hd c (List.mem_cons_self c t)
    have hcv : digitVal c = some (c.toNat - 48) := by
      unfold digitVal
      rw [if_pos hc]
    simp only [List.cons_append, takeDigits, hcv]
    have ht := ih (fun d hdm => hd d (List.mem_cons_of_mem c hdm))
    simp only [List.append_eq, ht, List.map_cons]

theorem parseNum_natChars {n : Nat} {rest : List Char} (hr : restOk rest) :
    parseNum (natChars n ++ rest) = some ((n : Int), rest) := by
  obtain ⟨c, t, hct⟩ : ∃ c t, natChars n = c :: t := by
    cases h : natChars n with
    | nil => exact absurd h (natChars_ne_nil n)
    | cons c t => exact ⟨c, t, rfl⟩
  have hcdig : 48 ≤ c.toNat ∧ c.toNat ≤ 57 :=
    natChars_digits c (hct ▸ List.mem_cons_self c t)
  have h45 : minusc.toNat = 45 := by decide
  rw [hct, List.cons_append]
  simp only [parseNum]
  rw [if_neg (char_ne_of_toNat_ne (by omega))]
  rw [← List.cons_append, ← hct]
  rw [takeDigits_exact natChars_digits hr]
  cases hmap : (natChars n).map (fun c => c.toNat - 48) with
  | nil =>
    exact absurd (List.map_eq_nil_iff.mp hmap) (natChars_ne_nil n)
  | cons d ds =>
    have hval : valOfDigits (d :: ds) = n := by
      rw [← hmap]
      exact valOfDigits_natChars n
    simp [hval]

theorem parseNum_intChars {i : Int} {rest : List Char} (hr : restOk rest) :
    parseNum (intChars i ++ rest) = some (i, rest) := by
  cases i with
  | ofNat n =>
    show parseNum (natChars n ++ rest) = some ((n : Int), rest)
    exact parseNum_natChars hr
  | negSucc m =>
    simp only [intChars, List.cons_append, parseNum]
    rw [if_pos trivial]
    rw [takeDigits_exact natChars_digits hr]
    cases hmap : (natChars (m + 1)).map (fun c => c.toNat - 48) with
    | nil =>
      exact absurd (List.map_eq_nil_iff.mp hmap) (natChars_ne_nil (m + 1))
    | cons d ds =>
      have hval : valOfDigits (d :: ds) = m + 1 := by
        rw [← hmap]
        exact valOfDigits_natChars (m + 1)
      have hneg : -((((m : Nat) + 1 : Nat) : Int)) = Int.negSucc m := by
        rw [Int.negSucc_eq]
        push_cast
        ring
      simp only [hval, hneg]

theorem hexVal_hexDig : ∀ d : Fin 16, hexVal (hexDig d.val) = some d.val := by decide

theorem psb_escChar (c : Char) (t : List Char) :
    psb (escChar c ++ t) = (psb t).map (fun p => (c :: p.1, p.2)) := by
  unfold escChar
  by_cases h1 : c = qc
  · rw [if_pos h1, h1]
    simp only [List.cons_append, List.nil_append]
    rw [psb.eq_def]
    simp +decide
  · rw [if_neg h1]
    by_cases h2 : c = bsc
    · rw [if_pos h2, h2]
      simp only [List.cons_append, List.nil_append]
      rw [psb.eq_def]
      simp +decide
    · rw [if_neg h2]
      by_cases h3 : c = Char.ofNat 8
      · rw [if_pos h3, h3]
        simp only [List.cons_append, List.nil_append]
        rw [psb.eq_def]
        simp +decide
      · rw [if_neg h3]
        by_cases h4 : c = Char.ofNat 9
        · rw [if_pos h4, h4]
          simp only [List.cons_append, List.nil_append]
          rw [psb.eq_def]
          simp +decide
        · rw [if_neg h4]
          by_cases h5 : c = Char.ofNat 10
          · rw [if_pos h5, h5]
            simp only [List.cons_append, List.nil_append]
            rw [psb.eq_def]
            simp +decide
          · rw [if_neg h5]
            by_cases h6 : c = Char.ofNat 12
            · rw [if_pos h6, h6]
              simp only [List.cons_append, List.nil_append]
              rw [psb.eq_def]
              simp +decide
            · rw [if_neg h6]
              by_cases h7 : c = Char.ofNat 13
              · rw [if_pos h7, h7]
                simp only [List.cons_append, List.nil_append]
                rw [psb.eq_def]
                simp +decide
              · rw [if_neg h7]
                by_cases h8 : c.toNat < 32
                · rw [if_pos h8]
                  simp only [List.cons_append, List.nil_append]
                  rw [psb.eq_def]
                  simp only []
                  rw [show hexVal (Char.ofNat 48) = some 0 from by decide,
                    hexVal_hexDig ⟨c.toNat / 16, by omega⟩,
                    hexVal_hexDig ⟨c.toNat % 16, by omega⟩]
                  simp +decide
                  have hdm : c.toNat / 16 * 16 + c.toNat % 16 = c.toNat := by
                    omega
                  rw [hdm, if_pos (show c.toNat < 55296 from by omega),
                    Char.ofNat_toNat]
                · rw [if_neg h8]
                  simp only [List.cons_append, List.nil_append]
                  rw [psb.eq_def]
                  simp [h1, h2]

theorem psb_escape (cs rest : List Char) :
    psb (escList cs ++ (qc :: rest)) = some (cs, rest) := by
  induction cs with
  | nil =>
    simp only [escList, List.nil_append]
    rw [psb.eq_def]
    simp
  | cons c cs ih =>
    simp only [escList, List.append_assoc]
    rw [psb_escChar, ih]
    rfl

mutual

/-- Parser fuel sufficient for a printed value (see pj_schars). -/
def jneed : Json → Nat
  | Json.null => 1
  | Json.bool _ => 1
  | Json.num _ => 1
  | Json.str _ => 1
  | Json.arr xs => 1 + jneedArrF xs
  | Json.obj fs => 1 + jneedObjF fs

/-- Fuel for the element list of an array (first element position). -/
def jneedArrF : JsonList → Nat
  | JsonList.nil => 1
  | JsonList.cons x tl => 1 + jneed x + jneedArrR tl

/-- Fuel for the element list of an array (after a comma). -/
def jneedArrR : JsonList → Nat
  | JsonList.nil => 1
  | JsonList.cons x tl => 1 + jneed x + jneedArrR tl

/-- Fuel for the field list of an object (first member position). -/
def jneedObjF : JsonFields → Nat
  | JsonFields.nil => 1
  | JsonFields.cons _ v tl => 1 + jneed v + jneedObjR tl

/-- Fuel for the field list of an object (after a comma). -/
def jneedObjR : JsonFields → Nat
  | JsonFields.nil => 1
  | JsonFields.cons _ v tl => 1 + jneed v + jneedObjR tl

end

theorem nullList : ("null").toList = Char.ofNat 110 :: ("ull").toList := by decide

theorem trueList : ("true").toList = Char.ofNat 116 :: ("rue").toList := by decide

theorem falseList : ("false").toList = Char.ofNat 102 :: ("alse").toList := by decide

theorem take_ne_null {c : Char} {t : List Char} (h : ¬ c = Char.ofNat 110) :
    ¬ ((c :: t).take 4 = ("null").toList) := by
  rw [show (4 : Nat) = 3 + 1 from rfl, List.take_succ_cons, nullList]
  intro he
  injection he with he1 he2
  exact h he1

theorem take_ne_true {c : Char} {t : List Char} (h : ¬ c = Char.ofNat 116) :
    ¬ ((c :: t).take 4 = ("true").toList) := by
  rw [show (4 : Nat) = 3 + 1 from rfl, List.take_succ_cons, trueList]
  intro he
  injection he with he1 he2
  exact h he1

theorem take_ne_false {c : Char} {t : List Char} (h : ¬ c = Char.ofNat 102) :
    ¬ ((c :: t).take 5 = ("false").toList) := by
  rw [show (5 : Nat) = 4 + 1 from rfl, List.take_succ_cons, falseList]
  intro he
  injection he with he1 he2
  exact h he1

theorem take_append_lit {l r : List Char} (n : Nat) (h : l.length = n) :
    (l ++ r).take n = l := by
  subst h
  exact List.take_left l r

theorem drop_append_lit {l r : List Char} (n : Nat) (h : l.length = n) :
    (l ++ r).drop n = r := by
  subst h
  exact List.drop_left l r

theorem intChars_head (i : Int) :
    ∃ c t, intChars i = c :: t ∧ 45 ≤ c.toNat ∧ c.toNat ≤ 57 := by
  have hnc : ∀ n : Nat, ∃ c t, natChars n = c :: t ∧ 48 ≤ c.toNat ∧ c.toNat ≤ 57 := by
    intro n
    cases hct : natChars n with
    | nil => exact absurd hct (natChars_ne_nil n)
    | cons c t =>
      have := natChars_digits c (hct ▸ List.mem_cons_self c t)
      exact ⟨c, t, rfl, this.1, this.2⟩
  cases i with
  | ofNat n =>
    obtain ⟨c, t, hct, h1, h2⟩ := hnc n
    exact ⟨c, t, by simpa [intChars] using hct, by omega, h2⟩
  | negSucc m =>
    exact ⟨minusc, natChars (m + 1), rfl, by decide, by decide⟩

theorem schars_head (v : Json) : ∃ c t, schars v = c :: t ∧ ¬ (c = rbk) := by
  cases v with
  | null => exact ⟨Char.ofNat 110, ("ull").toList, by decide, by decide⟩
  | bool b =>
    cases b with
    | true => exact ⟨Char.ofNat 116, ("rue").toList, by decide, by decide⟩
    | false => exact ⟨Char.ofNat 102, ("alse").toList, by decide, by decide⟩
  | num i =>
    obtain ⟨c, t, hct, h1, h2⟩ := intChars_head i
    have h93 : rbk.toNat = 93 := by decide
    exact ⟨c, t, by simpa [schars] using hct, char_ne_of_toNat_ne (by omega)⟩
  | str s => exact ⟨qc, escList s.toList ++ [qc], by simp [schars], by decide⟩
  | arr xs => exact ⟨lbk, scharsArr xs, by simp [schars], by decide⟩
  | obj fs => exact ⟨lbr, scharsObj fs, by simp [schars], by decide⟩

theorem restOk_arrRest (tl : JsonList) (r : List Char) :
    restOk (scharsArrRest tl ++ r) := by
  cases tl with
  | nil =>
    show restOk ([rbk] ++ r)
    rw [List.singleton_append]
    show digitVal rbk = none
    decide
  | cons x tl =>
    show restOk ((commac :: (schars x ++ scharsArrRest tl)) ++ r)
    rw [List.cons_append]
    show digitVal commac = none
    decide

theorem restOk_objRest (tl : JsonFields) (r : List Char) :
    restOk (scharsObjRest tl ++ r) := by
  cases tl with
  | nil =>
    show restOk ([rbr] ++ r)
    rw [List.singleton_append]
    show digitVal rbr = none
    decide
  | cons k v tl =>
    show restOk ((commac :: (qc :: (escList k.toList ++ [qc] ++
        (colonc :: (schars v ++ scharsObjRest tl))))) ++ r)
    rw [List.cons_append]
    show digitVal commac = none
    decide

theorem toNat110 : (Char.ofNat 110).toNat = 110 := by decide

theorem toNat116 : (Char.ofNat 116).toNat = 116 := by decide

theorem toNat102 : (Char.ofNat 102).toNat = 102 := by decide

theorem toNatQc : qc.toNat = 34 := by decide

theorem toNatLbk : lbk.toNat = 91 := by decide

theorem toNatLbr : lbr.toNat = 123 := by decide

theorem take_append_ne {l r m : List Char} (n : Nat) (hl : ¬ (l.take n = m))
    (hlen : n ≤ l.length) : ¬ ((l ++ r).take n = m) := by
  rw [List.take_append_of_le_length hlen]
  exact hl

mutual

theorem pj_schars (v : Json) : ∀ fuel rest, jneed v ≤ fuel → restOk rest →
    pj fuel PMode.val (schars v ++ rest) = some (PRes.v v, rest) := by
  cases v with
  | null =>
    intro fuel rest hf hr
    have h1 : 1 ≤ fuel := by simpa [jneed] using hf
    obtain ⟨f, rfl⟩ : ∃ f, fuel = f + 1 := ⟨fuel - 1, by omega⟩
    rw [pj.eq_def]
    simp only []
    rw [if_pos ((take_append_lit 4 (by decide)).trans (by decide)),
      drop_append_lit 4 (by decide)]
  | bool b =>
    intro fuel rest hf hr
    have h1 : 1 ≤ fuel := by simpa [jneed] using hf
    obtain ⟨f, rfl⟩ : ∃ f, fuel = f + 1 := ⟨fuel - 1, by omega⟩
    cases b with
    | true =>
      rw [pj.eq_def]
      simp only []
      rw [if_neg (take_append_ne 4 (by decide) (by decide)),
        if_pos ((take_append_lit 4 (by decide)).trans (by decide)),
        drop_append_lit 4 (by decide)]
    | false =>
      rw [pj.eq_def]
      simp only []
      rw [if_neg (take_append_ne 4 (by decide) (by decide)),
        if_neg (take_append_ne 4 (by decide) (by decide)),
        if_pos ((take_append_lit 5 (by decide)).trans (by decide)),
        drop_append_lit 5 (by decide)]
  | num i =>
    intro fuel rest hf hr
    have h1 : 1 ≤ fuel := by simpa [jneed] using hf
    obtain ⟨f, rfl⟩ : ∃ f, fuel = f + 1 := ⟨fuel - 1, by omega⟩
    obtain ⟨c, t, hct, hc1, hc2⟩ := intChars_head i
    have hs : schars (Json.num i) = intChars i := by simp [schars]
    rw [pj.eq_def]
    simp only []
    rw [hs, hct, List.cons_append]
    rw [if_neg (take_ne_null (char_ne_of_toNat_ne (by rw [toNat110]; omega))),
      if_neg (take_ne_true (char_ne_of_toNat_ne (by rw [toNat116]; omega))),
      if_neg (take_ne_false (char_ne_of_toNat_ne (by rw [toNat102]; omega)))]
    simp only []
    rw [if_neg (char_ne_of_toNat_ne (by rw [toNatQc]; omega)),
      if_neg (char_ne_of_toNat_ne (by rw [toNatLbk]; omega)),
      if_neg (char_ne_of_toNat_ne (by rw [toNatLbr]; omega))]
    rw [← List.cons_append, ← hct, parseNum_intChars hr]
    rfl
  | str s =>
    intro fuel rest hf hr
    have h1 : 1 ≤ fuel := by simpa [jneed] using hf
    obtain ⟨f, rfl⟩ : ∃ f, fuel = f + 1 := ⟨fuel - 1, by omega⟩
    have hs : schars (Json.str s) = qc :: (escList s.toList ++ [qc]) := by
      simp [schars]
    rw [pj.eq_def]
    simp only []
    rw [hs, List.cons_append]
    rw [if_neg (take_ne_null (by decide)), if_neg (take_ne_true (by decide)),
      if_neg (take_ne_false (by decide))]
    simp only []
    rw [if_pos trivial]
    rw [List.append_assoc, List.singleton_append, psb_escape]
    simp only [Option.map]
    rw [show String.mk s.toList = s from rfl]
  | arr xs =>
    intro fuel rest hf hr
    have h1 : 1 + jneedArrF xs ≤ fuel := by simpa [jneed] using hf
    obtain ⟨f, rfl⟩ : ∃ f, fuel = f + 1 := ⟨fuel - 1, by omega⟩
    have hs : schars (Json.arr xs) = lbk :: scharsArr xs := by simp [schars]
    rw [pj.eq_def]
    simp only []
    rw [hs, List.cons_append]
    rw [if_neg (take_ne_null (by decide)), if_neg (take_ne_true (by decide)),
      if_neg (take_ne_false (by decide))]
    simp only []
    rw [pj_scharsArrF xs f rest (by omega)]
    simp +decide
  | obj fs =>
    intro fuel rest hf hr
    have h1 : 1 + jneedObjF fs ≤ fuel := by simpa [jneed] using hf
    obtain ⟨f, rfl⟩ : ∃ f, fuel = f + 1 := ⟨fuel - 1, by omega⟩
    have hs : schars (Json.obj fs) = lbr :: scharsObj fs := by simp [schars]
    rw [pj.eq_def]
    simp only []
    rw [hs, List.cons_append]
    rw [if_neg (take_ne_null (by decide)), if_neg (take_ne_true (by decide)),
      if_neg (take_ne_false (by decide))]
    simp only []
    rw [pj_scharsObjF fs f rest (by omega)]
    simp +decide

theorem pj_scharsArrF (xs : JsonList) : ∀ fuel rest, jneedArrF xs ≤ fuel →
    pj fuel PMode.arrFirst (scharsArr xs ++ rest) = some (PRes.vs xs, rest) := by
  cases xs with
  | nil =>
    intro fuel rest hf
    have h1 : 1 ≤ fuel := by simpa [jneedArrF] using hf
    obtain ⟨f, rfl⟩ : ∃ f, fuel = f + 1 := ⟨fuel - 1, by omega⟩
    have hs : scharsArr JsonList.nil = [rbk] := by simp [scharsArr]
    rw [pj.eq_def]
    simp only []
    rw [hs, List.singleton_append]
    simp only []
    rw [if_pos trivial]
  | cons x tl =>
    intro fuel rest hf
    have h1 : 1 + jneed x + jneedArrR tl ≤ fuel := by simpa [jneedArrF] using hf
    obtain ⟨f, rfl⟩ : ∃ f, fuel = f + 1 := ⟨fuel - 1, by omega⟩
    have hs : scharsArr (JsonList.cons x tl) = schars x ++ scharsArrRest tl := by
      simp [scharsArr]
    rw [pj.eq_def]
    simp only []
    rw [hs, List.append_assoc]
    obtain ⟨c, t, hct, hcrbk⟩ := schars_head x
    rw [hct, List.cons_append]
    simp only []
    rw [if_neg hcrbk]
    rw [← List.cons_append, ← hct]
    rw [pj_schars x f (scharsArrRest tl ++ rest) (by omega) (restOk_arrRest tl rest)]
    simp only []
    rw [pj_scharsArrR tl f rest (by omega)]

theorem pj_scharsArrR (xs : JsonList) : ∀ fuel rest, jneedArrR xs ≤ fuel →
    pj fuel PMode.arrRest (scharsArrRest xs ++ rest) = some (PRes.vs xs, rest) := by
  cases xs with
  | nil =>
    intro fuel rest hf
    have h1 : 1 ≤ fuel := by simpa [jneedArrR] using hf
    obtain ⟨f, rfl⟩ : ∃ f, fuel = f + 1 := ⟨fuel - 1, by omega⟩
    have hs : scharsArrRest JsonList.nil = [rbk] := by simp [scharsArrRest]
    rw [pj.eq_def]
    simp only []
    rw [hs, List.singleton_append]
    simp only []
    rw [if_pos trivial]
  | cons x tl =>
    intro fuel rest hf
    have h1 : 1 + jneed x + jneedArrR tl ≤ fuel := by simpa [jneedArrR] using hf
    obtain ⟨f, rfl⟩ : ∃ f, fuel = f + 1 := ⟨fuel - 1, by omega⟩
    have hs : scharsArrRest (JsonList.cons x tl)
        = commac :: (schars x ++ scharsArrRest tl) := by simp [scharsArrRest]
    rw [pj.eq_def]
    simp only []
    rw [hs, List.cons_append, List.append_assoc]
    simp only []
    rw [pj_schars x f (scharsArrRest tl ++ rest) (by omega) (restOk_arrRest tl rest)]
    simp only []
    rw [pj_scharsArrR tl f rest (by omega)]
    simp +decide

theorem pj_scharsObjF (fs : JsonFields) : ∀ fuel rest, jneedObjF fs ≤ fuel →
    pj fuel PMode.objFirst (scharsObj fs ++ rest) = some (PRes.fs fs, rest) := by
  cases fs with
  | nil =>
    intro fuel rest hf
    have h1 : 1 ≤ fuel := by simpa [jneedObjF] using hf
    obtain ⟨f, rfl⟩ : ∃ f, fuel = f + 1 := ⟨fuel - 1, by omega⟩
    have hs : scharsObj JsonFields.nil = [rbr] := by simp [scharsObj]
    rw [pj.eq_def]
    simp only []
    rw [hs, List.singleton_append]
    simp only []
    rw [if_pos trivial]
  | cons k v tl =>
    intro fuel rest hf
    have h1 : 1 + jneed v + jneedObjR tl ≤ fuel := by simpa [jneedObjF] using hf
    obtain ⟨f, rfl⟩ : ∃ f, fuel = f + 1 := ⟨fuel - 1, by omega⟩
    have hs : scharsObj (JsonFields.cons k v tl)
        = qc :: (escList k.toList ++ [qc]
            ++ (colonc :: (schars v ++ scharsObjRest tl))) := by
      simp [scharsObj]
    rw [pj.eq_def]
    simp only []
    rw [hs, List.cons_append]
    simp only []
    simp only [List.append_assoc, List.singleton_append, List.cons_append,
      List.nil_append]
    rw [psb_escape]
    simp only []
    rw [pj_schars v f (scharsObjRest tl ++ rest) (by omega) (restOk_objRest tl rest)]
    simp only []
    rw [pj_scharsObjR tl f rest (by omega)]
    simp +decide [show String.mk k.toList = k from rfl]

theorem pj_scharsObjR (fs : JsonFields) : ∀ fuel rest, jneedObjR fs ≤ fuel →
    pj fuel PMode.objRest (scharsObjRest fs ++ rest) = some (PRes.fs fs, rest) := by
  cases fs with
  | nil =>
    intro fuel rest hf
    have h1 : 1 ≤ fuel := by simpa [jneedObjR] using hf
    obtain ⟨f, rfl⟩ : ∃ f, fuel = f + 1 := ⟨fuel - 1, by omega⟩
    have hs : scharsObjRest JsonFields.nil = [rbr] := by simp [scharsObjRest]
    rw [pj.eq_def]
    simp only []
    rw [hs, List.singleton_append]
    simp only []
    rw [if_pos trivial]
  | cons k v tl =>
    intro fuel rest hf
    have h1 : 1 + jneed v + jneedObjR tl ≤ fuel := by simpa [jneedObjR] using hf
    obtain ⟨f, rfl⟩ : ∃ f, fuel = f + 1 := ⟨fuel - 1, by omega⟩
    have hs : scharsObjRest (JsonFields.cons k v tl)
        = commac :: (qc :: (escList k.toList ++ [qc]
            ++ (colonc :: (schars v ++ scharsObjRest tl)))) := by
      simp [scharsObjRest]
    rw [pj.eq_def]
    simp only []
    rw [hs, List.cons_append]
    simp only []
    simp only [List.cons_append, List.append_assoc, List.singleton_append,
      List.nil_append]
    rw [psb_escape]
    simp only []
    rw [pj_schars v f (scharsObjRest tl ++ rest) (by omega) (restOk_objRest tl rest)]
    simp only []
    rw [pj_scharsObjR tl f rest (by omega)]
    simp +decide [show String.mk k.toList = k from rfl]

end

mutual

theorem jneed_le_len (v : Json) : jneed v + 1 ≤ 2 * (schars v).length := by
  cases v with
  | null => decide
  | bool b => cases b <;> decide
  | num i =>
    obtain ⟨c, t, hct, h1, h2⟩ := intChars_head i
    have hs : schars (Json.num i) = intChars i := by simp [schars]
    rw [hs, hct]
    simp only [jneed, List.length_cons]
    omega
  | str s =>
    have hs : schars (Json.str s) = qc :: (escList s.toList ++ [qc]) := by
      simp [schars]
    rw [hs]
    simp only [jneed, List.length_cons, List.length_append]
    omega
  | arr xs =>
    have hs : schars (Json.arr xs) = lbk :: scharsArr xs := by simp [schars]
    have h := jneedArrF_le_len xs
    rw [hs]
    simp only [jneed, List.length_cons]
    omega
  | obj fs =>
    have hs : schars (Json.obj fs) = lbr :: scharsObj fs := by simp [schars]
    have h := jneedObjF_le_len fs
    rw [hs]
    simp only [jneed, List.length_cons]
    omega

theorem jneedArrF_le_len (xs : JsonList) :
    jneedArrF xs + 1 ≤ 2 * (scharsArr xs).length := by
  cases xs with
  | nil => decide
  | cons x tl =>
    have h1 := jneed_le_len x
    have h2 := jneedArrR_le_len tl
    have hs : scharsArr (JsonList.cons x tl) = schars x ++ scharsArrRest tl := by
      simp [scharsArr]
    rw [hs]
    simp only [jneedArrF, List.length_append]
    omega

theorem jneedArrR_le_len (xs : JsonList) :
    jneedArrR xs + 1 ≤ 2 * (scharsArrRest xs).length := by
  cases xs with
  | nil => decide
  | cons x tl =>
    have h1 := jneed_le_len x
    have h2 := jneedArrR_le_len tl
    have hs : scharsArrRest (JsonList.cons x tl)
        = commac :: (schars x ++ scharsArrRest tl) := by simp [scharsArrRest]
    rw [hs]
    simp only [jneedArrR, List.length_cons, List.length_append]
    omega

theorem jneedObjF_le_len (fs : JsonFields) :
    jneedObjF fs + 1 ≤ 2 * (scharsObj fs).length := by
  cases fs with
  | nil => decide
  | cons k v tl =>
    have h1 := jneed_le_len v
    have h2 := jneedObjR_le_len tl
    have hs : scharsObj (JsonFields.cons k v tl)
        = qc :: (escList k.toList ++ [qc]
            ++ (colonc :: (schars v ++ scharsObjRest tl))) := by
      simp [scharsObj]
    rw [hs]
    simp only [jneedObjF, List.length_cons, List.length_append]
    omega

theorem jneedObjR_le_len (fs : JsonFields) :
    jneedObjR fs + 1 ≤ 2 * (scharsObjRest fs).length := by
  cases fs with
  | nil => decide
  | cons k v tl =>
    have h1 := jneed_le_len v
    have h2 := jneedObjR_le_len tl
    have hs : scharsObjRest (JsonFields.cons k v tl)
        = commac :: (qc :: (escList k.toList ++ [qc]
            ++ (colonc :: (schars v ++ scharsObjRest tl)))) := by
      simp [scharsObjRest]
    rw [hs]
    simp only [jneedObjR, List.length_cons, List.length_append]
    omega

end

/-- JSON.parse is a left inverse of JSON.stringify on the modelled
value space — the platform round-trip that storeGameData /
getStoredGameData rely on. -/
theorem parseJson_stringify (v : Json) : parseJson (stringifyStr v) = some v := by
  unfold parseJson stringifyStr
  rw [show (String.mk (schars v)).toList = schars v from rfl]
  have h := pj_schars v (2 * (schars v).length + 4) []
    (by have := jneed_le_len v; omega) trivial
  rw [List.append_nil] at h
  rw [h]

/-! ### Store-level helper lemmas -/

theorem storeMatch_storePut_self (st : Store) (url : String) (r : Response) :
    storeMatch (storePut st url r) url = some r := by
  simp [storeMatch, storePut]

theorem storeMatch_none_of_not_mem : ∀ {st : Store} {key : String},
    ¬ (key ∈ st.map Prod.fst) → storeMatch st key = none := by
  intro st
  induction st with
  | nil => intro key h; rfl
  | cons e st ih =>
    intro key h
    simp only [List.map_cons, List.mem_cons] at h
    push_neg at h
    unfold storeMatch
    rw [List.find?_cons_of_neg]
    · exact ih h.2
    · simp only [decide_eq_true_eq]
      exact fun he => h.1 he.symm

theorem storeMatch_cleanup (now : Nat) : ∀ (st : Store) (key : String),
    (st.map Prod.fst).Nodup →
    storeMatch (cleanupOldData now st) key =
      match storeMatch st key with
      | some r => if maxAgeMs < now - dateOf r then none else some r
      | none => none := by
  intro st
  induction st with
  | nil => intro key hnd; rfl
  | cons e st ih =>
    intro key hnd
    obtain ⟨k0, r0⟩ := e
    simp only [List.map_cons, List.nodup_cons] at hnd
    obtain ⟨hk0, hnd2⟩ := hnd
    have ihs := ih key hnd2
    by_cases hp : maxAgeMs < now - dateOf r0
    · have hfc : cleanupOldData now ((k0, r0) :: st) = cleanupOldData now st := by
        unfold cleanupOldData
        rw [List.filter_cons_of_neg]
        simp [hp]
      rw [hfc, ihs]
      by_cases hk : k0 = key
      · subst hk
        rw [storeMatch_none_of_not_mem hk0]
        have h2 : storeMatch ((k0, r0) :: st) k0 = some r0 := by
          unfold storeMatch
          rw [List.find?_cons_of_pos _ (by simp)]
          rfl
        rw [h2]
        simp [hp]
      · have h2 : storeMatch ((k0, r0) :: st) key = storeMatch st key := by
          unfold storeMatch
          rw [List.find?_cons_of_neg _ (by simp [hk])]
        rw [h2]
    · have hfc : cleanupOldData now ((k0, r0) :: st)
          = (k0, r0) :: cleanupOldData now st := by
        unfold cleanupOldData
        rw [List.filter_cons_of_pos]
        simp [hp]
      rw [hfc]
      by_cases hk : k0 = key
      · subst hk
        have h2 : storeMatch ((k0, r0) :: st) k0 = some r0 := by
          unfold storeMatch
          rw [List.find?_cons_of_pos _ (by simp)]
          rfl
        have h3 : storeMatch ((k0, r0) :: cleanupOldData now st) k0 = some r0 := by
          unfold storeMatch
          rw [List.find?_cons_of_pos _ (by simp)]
          rfl
        rw [h2, h3]
        simp [hp]
      · have h2 : storeMatch ((k0, r0) :: st) key = storeMatch st key := by
          unfold storeMatch
          rw [List.find?_cons_of_neg _ (by simp [hk])]
        have h3 : storeMatch ((k0, r0) :: cleanupOldData now st) key
            = storeMatch (cleanupOldData now st) key := by
          unfold storeMatch
          rw [List.find?_cons_of_neg _ (by simp [hk])]
        rw [h2, h3, ihs]

theorem storePut_nodup {st : Store} (url : String) (r : Response)
    (h : (st.map Prod.fst).Nodup) : ((storePut st url r).map Prod.fst).Nodup := by
  unfold storePut
  simp only [List.map_cons, List.nodup_cons]
  refine ⟨?_, ?_⟩
  · intro hmem
    obtain ⟨e, he, heq⟩ := List.mem_map.mp hmem
    have hp := List.of_mem_filter he
    simp only [decide_eq_true_eq] at hp
    exact hp heq
  · exact List.Nodup.sublist (List.Sublist.map Prod.fst (List.filter_sublist st)) h

/-! ### Claim theorems -/

/-- Example origin for witnesses. -/
def exOrigin : String := "https://example.com"

/-- Example stored/fetched response for witnesses. -/
def exResp : Response :=
  { status := 200
    rtype := ResponseType.basic
    body := "x"
    headers := { contentType := none, date := none } }

/-- C1: for every GET request handled by the fetch listener (allowed
origin) whose request identity is present in the active cache store,
the listener serves the stored response and performs no network fetch:
cache strictly wins over network on a hit, with no freshness check.
(Every entry this worker ever writes is under an allowed-origin URL —
install assets, fetch-listener writes and the '/game-data' record — so
the origin-filter hypothesis holds for any cached identity.) -/
theorem c1_cache_hit_no_fetch (origin : String) (req : Request) (st : Store)
    (net : NetResult) (r : Response) (hm : req.method = "GET")
    (ha : allowedUrl origin req.url = true)
    (hhit : storeMatch st req.url = some r) :
    handleFetch origin req st net = ⟨FetchOutcome.served r, st, false⟩ := by
  unfold handleFetch
  rw [if_neg (by simp [hm]), if_neg (by simp [ha]), hhit]

/-- Witness for C1: a concrete cached GET request is answered from the
store with no fetch, for a rejected (offline) network. -/
theorem c1_witness :
    ("GET" : String).length = 3 ∧
    handleFetch exOrigin ⟨"GET", ("https://example.com/a"), ("cors")⟩
        [(("https://example.com/a"), exResp)] NetResult.rejected
      = ⟨FetchOutcome.served exResp, [(("https://example.com/a"), exResp)], false⟩ :=
  ⟨by decide,
    c1_cache_hit_no_fetch exOrigin _ _ _ exResp rfl (by decide) (by decide)⟩

/-- C6: on a handled GET that misses the cache and whose network fetch
rejects entirely: a top-level navigation is answered with the cached
offline-fallback document (OFFLINE_URL, cached at install) instead of
an error, while a non-navigation request surfaces the failure to the
caller (the catch resolves with undefined, which respondWith turns
into a network error for the requesting client). -/
theorem c6_offline_fallback (origin : String) (req : Request) (st : Store)
    (doc : Response) (hm : req.method = "GET")
    (ha : allowedUrl origin req.url = true)
    (hmiss : storeMatch st req.url = none)
    (hdoc : storeMatch st (resolve origin OFFLINE_URL) = some doc) :
    (req.mode = "navigate" →
      handleFetch origin req st NetResult.rejected
        = ⟨FetchOutcome.served doc, st, true⟩)
    ∧ (¬ (req.mode = "navigate") →
      handleFetch origin req st NetResult.rejected
        = ⟨FetchOutcome.networkError, st, true⟩) := by
  constructor
  · intro hnav
    unfold handleFetch
    rw [if_neg (by simp [hm]), if_neg (by simp [ha]), hmiss]
    simp only []
    rw [if_pos hnav, hdoc]
  · intro hnav
    unfold handleFetch
    rw [if_neg (by simp [hm]), if_neg (by simp [ha]), hmiss]
    simp only []
    rw [if_neg hnav]

/-- Witness for C6: a navigation miss with failed fetch gets the
cached offline page; the same request in non-navigation mode gets a
network error. -/
theorem c6_witness :
    (("navigate" : String) = "navigate") ∧
    handleFetch exOrigin ⟨"GET", ("https://example.com/missing"), ("navigate")⟩
        [(("https://example.com/index_new.html"), exResp)] NetResult.rejected
      = ⟨FetchOutcome.served exResp,
          [(("https://example.com/index_new.html"), exResp)], true⟩
    ∧ handleFetch exOrigin ⟨"GET", ("https://example.com/missing"), ("cors")⟩
        [(("https://example.com/index_new.html"), exResp)] NetResult.rejected
      = ⟨FetchOutcome.networkError,
          [(("https://example.com/index_new.html"), exResp)], true⟩ :=
  ⟨rfl,
    (c6_offline_fallback exOrigin _ _ exResp rfl (by decide) (by decide)
        (by decide)).1 rfl,
    (c6_offline_fallback exOrigin _ _ exResp rfl (by decide) (by decide)
        (by decide)).2 (by decide)⟩

/-- C8: on a handled GET cache miss whose fetch resolves with a
status-200 response of type basic (the replayable type: the code's
`type !== 'basic'` check, matching the spec's exclusion of
opaque/cross-origin types), one copy is served to the caller and a
clone is written to the store under the request identity; and no cache
entry is ever created for a non-200 or non-basic response, nor for a
request outside the origin filter. -/
theorem c8_miss_success_cached (origin : String) (req : Request) (st : Store)
    (r : Response) (hm : req.method = "GET")
    (ha : allowedUrl origin req.url = true)
    (hmiss : storeMatch st req.url = none) (h200 : r.status = 200)
    (hbasic : r.rtype = ResponseType.basic) :
    handleFetch origin req st (NetResult.resolved (some r))
        = ⟨FetchOutcome.served r, storePut st req.url r, true⟩
      ∧ (∀ r2 : Response, ¬ (r2.status = 200 ∧ r2.rtype = ResponseType.basic) →
          handleFetch origin req st (NetResult.resolved (some r2))
            = ⟨FetchOutcome.served r2, st, true⟩)
      ∧ (∀ (req2 : Request) (st2 : Store) (net2 : NetResult),
          allowedUrl origin req2.url = false →
          (handleFetch origin req2 st2 net2).store = st2) := by
  refine ⟨?_, ?_, ?_⟩
  · unfold handleFetch
    rw [if_neg (by simp [hm]), if_neg (by simp [ha]), hmiss]
    simp only []
    rw [if_pos ⟨h200, hbasic⟩]
  · intro r2 hne
    unfold handleFetch
    rw [if_neg (by simp [hm]), if_neg (by simp [ha]), hmiss]
    simp only []
    rw [if_neg hne]
  · intro req2 st2 net2 hna
    unfold handleFetch
    by_cases hm2 : req2.method = "GET"
    · rw [if_neg (by simp [hm2]), if_pos (by simp [hna])]
    · rw [if_pos hm2]

/-- Witness for C8: a concrete miss with a 200 basic response is served
and cached under the request URL. -/
theorem c8_witness :
    exResp.status = 200 ∧
    handleFetch exOrigin ⟨"GET", ("https://example.com/a"), ("cors")⟩ []
        (NetResult.resolved (some exResp))
      = ⟨FetchOutcome.served exResp,
          storePut [] ("https://example.com/a") exResp, true⟩ :=
  ⟨rfl,
    (c8_miss_success_cached exOrigin _ _ exResp rfl (by decide) (by decide) rfl
        rfl).1⟩

/-- Asset fetcher for the C2 scenario: asset A succeeds, asset B
fails. -/
def exFetchFail (u : String) : Option Response :=
  if u = ("/a") then some exResp else none

/-- C2 counterexample: install with assets [A, B] where B's fetch
fails.  The claim says the install reports failure to the platform,
but the trailing `.catch(error => console.error(...))` swallows the
rejection, so `event.waitUntil` sees a resolved promise and the
install completes successfully from the platform's point of view. -/
theorem c2_counterexample :
    exFetchFail ("/b") = none
    ∧ (installHandler exOrigin exFetchFail [("/a"), ("/b")]).reportedFailure
        = false := by decide

/-- C2 amended: if any asset in the list fails to fetch, the install
does NOT report failure — the catch converts the rejection into
success — but the rollback half of the claim holds: addAll is atomic,
so the new version's store contains none of the assets, and
skipWaiting is never reached, so readiness to activate is not
signalled. -/
theorem c2_amended_install_failure (origin : String)
    (fetchOk : String → Option Response) (assets : List String)
    (h : ∃ a ∈ assets, fetchOk a = none) :
    installHandler origin fetchOk assets
      = { reportedFailure := false, skipWaitingCalled := false, store := [] } := by
  unfold installHandler
  rw [if_neg]
  intro hall
  rw [List.all_eq_true] at hall
  obtain ⟨a, ha, hfa⟩ := h
  have h2 := hall a ha
  rw [hfa] at h2
  simp at h2

/-- Witness for C2 (amended) at the [A, B] scenario with B failing. -/
theorem c2_amended_witness :
    (∃ a ∈ [("/a"), ("/b")], exFetchFail a = none)
    ∧ installHandler exOrigin exFetchFail [("/a"), ("/b")]
        = { reportedFailure := false, skipWaitingCalled := false, store := [] } :=
  ⟨⟨("/b"), by decide, by decide⟩,
    c2_amended_install_failure exOrigin exFetchFail _
      ⟨("/b"), by decide, by decide⟩⟩

/-- C3: after the activate handler runs, every cache store whose name
(version tag) differs from the current build's CACHE_NAME has been
deleted: it is no longer queryable, and every store remaining in the
universe carries the current tag. -/
theorem c3_activate_deletes_old (cu : CacheUniverse) (name : String)
    (h : ¬ (name = CACHE_NAME)) :
    cachesLookup (activateHandler cu) name = none
      ∧ ∀ e ∈ activateHandler cu, e.1 = CACHE_NAME := by
  constructor
  · unfold cachesLookup
    have hf : List.find? (fun e => decide (e.1 = name)) (activateHandler cu)
        = none := by
      rw [List.find?_eq_none]
      intro e he
      have h1 := List.of_mem_filter he
      simp only [decide_eq_true_eq] at h1 ⊢
      intro h2
      exact h (h2 ▸ h1)
    rw [hf]
    rfl
  · intro e he
    have h1 := List.of_mem_filter he
    simpa using h1

/-- Witness for C3: activating over a universe holding an old store
and the current one removes exactly the old one. -/
theorem c3_witness :
    ¬ (("blood-eagle-v0.9.0" : String) = CACHE_NAME)
    ∧ cachesLookup
        (activateHandler [(("blood-eagle-v0.9.0"), ([] : Store)),
          (CACHE_NAME, ([] : Store))]) ("blood-eagle-v0.9.0") = none
    ∧ ∀ e ∈ activateHandler [(("blood-eagle-v0.9.0"), ([] : Store)),
          (CACHE_NAME, ([] : Store))], e.1 = CACHE_NAME :=
  ⟨by decide,
    (c3_activate_deletes_old _ ("blood-eagle-v0.9.0") (by decide)).1,
    (c3_activate_deletes_old _ ("blood-eagle-v0.9.0") (by decide)).2⟩

/-- C7: a checkForUpdates cycle reads the ManifestSnapshot (the cached
copy of the deployment manifest, per the data model), compares its
version field against the running build's version
(CACHE_NAME.split('-v')[1]); a strict mismatch shows exactly one update
notification in that cycle, a match shows none, and in neither case is
activation forced (skipWaiting is never called by this path). -/
theorem c7_update_notification (origin : String) (st : Store) (m : Response)
    (j : Json) (fv : Option Json)
    (hm : storeMatch st (resolve origin ("/manifest.json")) = some m)
    (hj : respJson m = some j) (hv : jsGetField j ("version") = some fv) :
    (strictNeStr fv currentVersion = true →
      checkForUpdates origin st = ⟨1, false⟩)
    ∧ (strictNeStr fv currentVersion = false →
      checkForUpdates origin st = ⟨0, false⟩) := by
  unfold checkForUpdates
  rw [hm]
  simp only []
  rw [hj]
  simp only []
  rw [hv]
  constructor
  · intro hne
    simp only []
    rw [if_pos hne]
  · intro heq
    simp only []
    rw [if_neg (by simp [heq])]

/-- Manifest response used in the C7 witness. -/
def exManifest (v : String) : Response :=
  { status := 200
    rtype := ResponseType.basic
    body := stringifyStr (Json.obj (JsonFields.cons ("version") (Json.str v)
      JsonFields.nil))
    headers := { contentType := some ("application/json"), date := none } }

/-- Witness for C7: a cached manifest advertising version 2.0.0
against the running 1.0.0 build produces exactly one notification and
no forced activation; version 1.0.0 produces none. -/
theorem c7_witness :
    currentVersion = ("1.0.0")
    ∧ checkForUpdates exOrigin
        [(("https://example.com/manifest.json"), exManifest ("2.0.0"))]
      = ⟨1, false⟩
    ∧ checkForUpdates exOrigin
        [(("https://example.com/manifest.json"), exManifest ("1.0.0"))]
      = ⟨0, false⟩ :=
  ⟨by decide,
    (c7_update_notification exOrigin _ (exManifest ("2.0.0"))
        (Json.obj (JsonFields.cons ("version") (Json.str ("2.0.0"))
          JsonFields.nil))
        (some (Json.str ("2.0.0"))) (by decide) (by decide) (by decide)).1
      (by decide),
    (c7_update_notification exOrigin _ (exManifest ("1.0.0"))
        (Json.obj (JsonFields.cons ("version") (Json.str ("1.0.0"))
          JsonFields.nil))
        (some (Json.str ("1.0.0"))) (by decide) (by decide) (by decide)).2
      (by decide)⟩

/-- C4 counterexample: the retention sweep does delete the reserved
'/game-data' ProgressRecord.  Stored via storeGameData (no date
header, so dated at the epoch), the record is readable before the
sweep and gone after a sweep at clock 604800001 ms (7 days + 1 ms
after the epoch — every realistic clock value exceeds this). -/
theorem c4_counterexample :
    getStoredGameDataFn exOrigin (storeGameDataFn exOrigin [] Json.null)
      = some Json.null
    ∧ storeMatch
        (cleanupOldData 604800001 (storeGameDataFn exOrigin [] Json.null))
        (gameDataKey exOrigin) = none := by decide

/-- C4 amended: cleanupOldData does not special-case the reserved
'/game-data' key.  It ages the record by its date header — which
storeGameData never writes, so by the epoch — and deletes it whenever
the sweep clock exceeds the 7-day window (any realistic clock); the
record survives a sweep only while the clock is within 7 days of the
epoch. -/
theorem c4_amended_sweep_deletes_progress (origin : String) (st : Store)
    (v : Json) (now : Nat) (hnd : (st.map Prod.fst).Nodup) :
    (maxAgeMs < now →
      storeMatch (cleanupOldData now (storeGameDataFn origin st v))
        (gameDataKey origin) = none)
    ∧ (now ≤ maxAgeMs →
      storeMatch (cleanupOldData now (storeGameDataFn origin st v))
          (gameDataKey origin)
        = storeMatch (storeGameDataFn origin st v) (gameDataKey origin)) := by
  have hnd2 : ((storeGameDataFn origin st v).map Prod.fst).Nodup :=
    storePut_nodup _ _ hnd
  have hput := storeMatch_storePut_self st (gameDataKey origin)
    { status := 200
      rtype := ResponseType.default
      body := stringifyStr v
      headers := { contentType := some ("application/json"), date := none } }
  constructor
  · intro hnow
    rw [storeMatch_cleanup now _ _ hnd2]
    unfold storeGameDataFn
    rw [hput]
    simp [dateOf, hnow]
  · intro hnow
    rw [storeMatch_cleanup now _ _ hnd2]
    unfold storeGameDataFn
    rw [hput]
    simp [dateOf]
    omega

/-- Witness for C4 (amended): concrete sweeps around the epoch
boundary on a freshly stored record. -/
theorem c4_amended_witness :
    (([] : Store).map Prod.fst).Nodup
    ∧ (maxAgeMs < 604800001 →
      storeMatch (cleanupOldData 604800001
          (storeGameDataFn exOrigin [] (Json.num 3)))
        (gameDataKey exOrigin) = none)
    ∧ (604800000 ≤ maxAgeMs →
      storeMatch (cleanupOldData 604800000
          (storeGameDataFn exOrigin [] (Json.num 3)))
          (gameDataKey exOrigin)
        = storeMatch (storeGameDataFn exOrigin [] (Json.num 3))
            (gameDataKey exOrigin)) :=
  ⟨by decide,
    (c4_amended_sweep_deletes_progress exOrigin [] (Json.num 3) 604800001
        (by decide)).1,
    (c4_amended_sweep_deletes_progress exOrigin [] (Json.num 3) 604800000
        (by decide)).2⟩

/-- A cached response carrying no date header, for the C5
counterexample. -/
def noDateResp : Response :=
  { status := 200
    rtype := ResponseType.basic
    body := "x"
    headers := { contentType := none, date := none } }

/-- C5 counterexample: an entry stored at wall-clock time
T = 1700000000000 ms whose response has no date header is already
deleted by a sweep run at that same instant — far inside the claimed
7-day window after storage — because the sweep ages entries by the
response date header (epoch when absent), not by the storage time. -/
theorem c5_counterexample :
    storeMatch (storePut [] ("https://example.com/a") noDateResp)
        ("https://example.com/a") = some noDateResp
    ∧ storeMatch
        (cleanupOldData 1700000000000
          (storePut [] ("https://example.com/a") noDateResp))
        ("https://example.com/a") = none := by decide

/-- Response with a given date header, for the C5 amended theorem and
witness. -/
def datedResp (t : Nat) : Response :=
  { status := 200
    rtype := ResponseType.basic
    body := "x"
    headers := { contentType := none, date := some t } }

/-- C5 amended: the sweep compares now − dateHeader (not now − storage
time; a missing header counts as the epoch) against the 7-day window:
an entry whose response date header is T survives every sweep with
now − T ≤ 7 days and is deleted by every sweep with now − T > 7 days —
in particular, with the date header equal to the storage time T, the
entry is present at T + 6 days 23 h and absent after a sweep at
T + 7 days 1 h. -/
theorem c5_amended_eviction_boundary (st : Store) (key : String) (r : Response)
    (T now : Nat) (hnd : (st.map Prod.fst).Nodup)
    (hdate : r.headers.date = some T) (hhit : storeMatch st key = some r) :
    storeMatch (cleanupOldData now st) key
      = if maxAgeMs < now - T then none else some r := by
  rw [storeMatch_cleanup now st key hnd, hhit]
  simp only []
  unfold dateOf
  rw [hdate]
  rfl

/-- Witness for C5 (amended): a concrete entry dated T = 1000000 ms is
present after a sweep at T + 6 days 23 h and gone after a sweep at
T + 7 days 1 h. -/
theorem c5_amended_witness :
    (datedResp 1000000).headers.date = some 1000000
    ∧ storeMatch
        (cleanupOldData (1000000 + 601200000) [(("k"), datedResp 1000000)])
        ("k") = some (datedResp 1000000)
    ∧ storeMatch
        (cleanupOldData (1000000 + 608400000) [(("k"), datedResp 1000000)])
        ("k") = none :=
  ⟨rfl,
    (c5_amended_eviction_boundary [(("k"), datedResp 1000000)] ("k")
        (datedResp 1000000) 1000000 (1000000 + 601200000) (by decide) rfl
        (by decide)).trans (by decide),
    (c5_amended_eviction_boundary [(("k"), datedResp 1000000)] ("k")
        (datedResp 1000000) 1000000 (1000000 + 608400000) (by decide) rfl
        (by decide)).trans (by decide)⟩

/-- C9: over the control channel, STORE_GAME_DATA followed by
GET_STORED_DATA replies with a record deep-equal to the value stored,
for every JSON-serializable value: storeGameData writes
JSON.stringify(v) under '/game-data' and getStoredGameData parses it
back, and parse ∘ stringify is the identity. -/
theorem c9_store_get_roundtrip (origin : String) (st : Store) (v : Json) :
    (handleMessage origin
        (handleMessage origin st (Message.storeGD v)).1 Message.getStoredD).2
      = some (Reply.dataReply (some v)) := by
  unfold handleMessage
  simp only []
  unfold getStoredGameDataFn storeGameDataFn
  rw [storeMatch_storePut_self]
  unfold respJson
  simp only []
  rw [parseJson_stringify]

/-- C10: the cleanup pass takes each entry's storage time from the
response's date header and treats a missing header as the epoch
(time 0); consequently every cached entry without a date header — and
in particular the '/game-data' record written by storeGameData, which
sets only a Content-Type header — is deleted by the first cleanup pass
whose clock exceeds the 7-day window (every realistic clock). -/
theorem c10_missing_date_header_deleted (origin : String) (st : Store)
    (v : Json) (now : Nat) (hnow : maxAgeMs < now) :
    storeMatch (cleanupOldData now (storeGameDataFn origin st v))
        (gameDataKey origin) = none
    ∧ (∀ (st2 : Store) (key : String) (r : Response), r.headers.date = none →
        ¬ (storeMatch (cleanupOldData now st2) key = some r)) := by
  constructor
  · unfold storeGameDataFn storePut cleanupOldData
    rw [List.filter_cons_of_neg]
    swap
    · simp [dateOf, hnow]
    apply storeMatch_none_of_not_mem
    intro hmem
    obtain ⟨e, he, heq⟩ := List.mem_map.mp hmem
    have h2 : e ∈ st.filter (fun e => decide (¬ (e.1 = gameDataKey origin))) :=
      List.mem_of_mem_filter he
    have h3 := List.of_mem_filter h2
    simp only [decide_eq_true_eq] at h3
    exact h3 heq
  · intro st2 key r hdate hsome
    unfold cleanupOldData at hsome
    cases hf : List.find? (fun e => decide (e.1 = key))
        (st2.filter (fun e => decide (¬ (maxAgeMs < now - dateOf e.2)))) with
    | none =>
      unfold storeMatch at hsome
      rw [hf] at hsome
      exact Option.noConfusion hsome
    | some e =>
      unfold storeMatch at hsome
      rw [hf] at hsome
      have he : e ∈ st2.filter (fun e => decide (¬ (maxAgeMs < now - dateOf e.2))) :=
        List.mem_of_find?_eq_some hf
      have hpe := List.of_mem_filter he
      have her : e.2 = r := by simpa using hsome
      simp only [decide_eq_true_eq] at hpe
      rw [her] at hpe
      unfold dateOf at hpe
      rw [hdate] at hpe
      simp at hpe
      omega

/-- Witness for C10 at a concrete store, value and clock. -/
theorem c10_witness :
    maxAgeMs < 604800001
    ∧ storeMatch
        (cleanupOldData 604800001 (storeGameDataFn exOrigin [] (Json.num 5)))
        (gameDataKey exOrigin) = none :=
  ⟨by decide,
    (c10_missing_date_header_deleted exOrigin [] (Json.num 5) 604800001
        (by decide)).1⟩
